import Mathlib

/-!
Verification of the conversation/audio relay engine of google-assistant-helper.

The audio functions of `src/google-assistant-helper.js` operate on Node
buffers of signed 16-bit little-endian samples, scanning at byte stride 2.
Here a buffer is a `List Int` of decoded samples; a byte offset `i` of the
source corresponds to sample index `i / 2`, so a source byte quantity such
as `end - start + 2` appears as `2 * P.length - 2 * start`.  All deletions
and slices the source performs happen at even byte offsets whenever the
tunables (`maxSamples`, the only deployed value being 8000) are even, which
is exactly when this sample-level embedding is faithful; theorems that
depend on a deletion happening carry the hypothesis `2 ∣ maxSamples`.
-/

/-- A sample counts as silence when it is below the threshold
(`buf.readInt16LE(i) < threshold` in the source; the signed value is
compared, not its absolute value). -/
def silent (thr : Int) (s : Int) : Bool := s < thr

/-- The scan loop of `truncateSilences` (google-assistant-helper.js:330-353).
`P` is the already scanned prefix of the (mutated) buffer, the list argument
is the remaining suffix, and `st?` models the `start`/`end` pair: `some start`
iff `end != null`, in which case `end` is the byte offset of the last element
of `P` (every silent read sets `end = i`, and `end` is reset to `null` at
every non-silent read that follows silence).  On `end-start+2 > maxSamples`
the source deletes `deleteCount = end-start-maxSamples+2` bytes starting at
byte `start` and rewinds the cursor by `deleteCount`, which in this
prefix/suffix presentation is exactly dropping those samples from `P`. -/
def truncGo (thr : Int) (maxS : Nat) : List Int → List Int → Option Nat → List Int
  | P, [], _ => P
  | P, s :: R, st? =>
    if silent thr s then
      truncGo thr maxS (P ++ [s]) R (some (st?.getD P.length))
    else
      match st? with
      | some start =>
        if 2 * P.length - 2 * start > maxS then
          truncGo thr maxS
            ((P.take start ++ P.drop (start + (2 * P.length - 2 * start - maxS) / 2)) ++ [s])
            R none
        else
          truncGo thr maxS (P ++ [s]) R none
      | none => truncGo thr maxS (P ++ [s]) R none

/-- `truncateSilences(buf, maxSamples, threshold)`
(google-assistant-helper.js:330-353). -/
def truncateSilences (buf : List Int) (maxS : Nat) (thr : Int) : List Int :=
  truncGo thr maxS [] buf none

/-- Every maximal silent run that is followed by a non-silent sample occupies
at most `B` bytes (2 bytes per sample): any block of `n` consecutive silent
samples immediately followed by a non-silent sample has `2 * n ≤ B`.  Runs
that extend to the end of the buffer are not constrained. -/
def interiorBounded (thr : Int) (B : Nat) (L : List Int) : Prop :=
  ∀ i n, i + n < L.length →
    (∀ k, k < n → silent thr (L.getD (i + k) 0) = true) →
    silent thr (L.getD (i + n) 0) = false →
    2 * n ≤ B

/-- The claim's reading of the spec sentence "every maximal silent run has
length at most `maxSilenceSamples`", with run length counted in samples:
every block of `n` consecutive silent samples satisfies `n ≤ B`. -/
def runsBoundedSamples (thr : Int) (B : Nat) (L : List Int) : Prop :=
  ∀ i, i ≤ L.length → ∀ n, n ≤ L.length →
    (∀ k, k < n → i + k < L.length ∧ silent thr (L.getD (i + k) 0) = true) →
    n ≤ B

/-- Outcome of one pass of the inner scanning loop of `chunkBuffer`
(google-assistant-helper.js:284-327) over the current buffer. -/
inductive ScanOut where
  | finished : ScanOut
  | throwErr : ScanOut
  | cut : Nat → ScanOut
deriving DecidableEq

/-- The inner scan of `chunkBuffer`.  The list argument is the unscanned
suffix of the current buffer, `i` the sample index of its head (byte offset
`2 * i`), `runSE` the `start`/`end` pair of byte-silence bookkeeping in
sample units (`none` iff `end == null`; note the source resets `end` only
when a window longer than `minSamples` closes, so a tracked window can
bridge short non-silent gaps), and `endMarks` the recorded candidate cut
points (sample units; the source stores byte offsets `2 * i`).  A window of
span `end - start + 2 > minSamples` bytes closing at byte `2 * i <
maxLength` records a mark; closing at `2 * i ≥ maxLength` either throws
(no marks) or cuts at the last recorded mark. -/
def scanChunk (thr : Int) (minS maxLen : Nat) :
    List Int → Nat → Option (Nat × Nat) → List Nat → ScanOut
  | [], _, _, _ => .finished
  | s :: R, i, runSE, endMarks =>
    if silent thr s then
      scanChunk thr minS maxLen R (i + 1)
        (some (match runSE with
               | none => (i, i)
               | some (st, _) => (st, i))) endMarks
    else
      match runSE with
      | some (st, en) =>
        if 2 * (en - st) + 2 > minS then
          if 2 * i < maxLen then
            scanChunk thr minS maxLen R (i + 1) none (endMarks ++ [i])
          else
            match endMarks with
            | [] => .throwErr
            | m :: ms => .cut ((m :: ms).getLast (by simp))
        else
          scanChunk thr minS maxLen R (i + 1) (some (st, en)) endMarks
      | none => scanChunk thr minS maxLen R (i + 1) none endMarks

/-- Result of `chunkBuffer`: the list of chunks, or the thrown
`Unable to create chunk shorter than maxLength` error
(google-assistant-helper.js:311).  `fuelExhausted` is a modelling artifact
of the bounded outer loop and is unreachable with the fuel `chunkBuffer`
supplies. -/
inductive ChunkResult where
  | ok : List (List Int) → ChunkResult
  | chunkingImpossible : ChunkResult
  | fuelExhausted : ChunkResult
deriving DecidableEq

/-- The outer loop of `chunkBuffer`: on a cut at sample index `m` the source
pushes `buf.slice(0, 2*m)`, continues with `buf.slice(2*m)` and resets the
cursor to byte 2 (sample 1) with fresh silence state; when the scan reaches
the end, the remaining buffer is appended as the last chunk. -/
def chunkGo (thr : Int) (minS maxLen : Nat) :
    Nat → List (List Int) → List Int → Nat → ChunkResult
  | 0, _, _, _ => .fuelExhausted
  | fuel + 1, bufs, buf, startAt =>
    match scanChunk thr minS maxLen (buf.drop startAt) startAt none [] with
    | .finished => .ok (bufs ++ [buf])
    | .throwErr => .chunkingImpossible
    | .cut m => chunkGo thr minS maxLen fuel (bufs ++ [buf.take m]) (buf.drop m) 1

/-- `chunkBuffer(buf, minSamples, maxLength, threshold)`
(google-assistant-helper.js:284-327). -/
def chunkBuffer (buf : List Int) (minS maxLen : Nat) (thr : Int) : ChunkResult :=
  chunkGo thr minS maxLen (buf.length + 1) [] buf 0

/-- The byte position of the first qualifying silence-window closure of the
`chunkBuffer` scan: the first non-silent read at byte `2 * i` whose tracked
window satisfies `end - start + 2 > minSamples`.  Same state machine as
`scanChunk`, without marks. -/
def firstClosure (thr : Int) (minS : Nat) :
    List Int → Nat → Option (Nat × Nat) → Option Nat
  | [], _, _ => none
  | s :: R, i, runSE =>
    if silent thr s then
      firstClosure thr minS R (i + 1)
        (some (match runSE with
               | none => (i, i)
               | some (st, _) => (st, i)))
    else
      match runSE with
      | some (st, en) =>
        if 2 * (en - st) + 2 > minS then some (2 * i)
        else firstClosure thr minS R (i + 1) (some (st, en))
      | none => firstClosure thr minS R (i + 1) none

/-- The frame loop of `startConversation`
(google-assistant-helper.js:461-465): the outbound buffer (a byte list) is
written in successive `buf.slice(i, i+16000)` frames. -/
def framesOf (buf : List Nat) : List (List Nat) :=
  if buf = [] then []
  else buf.take 16000 :: framesOf (buf.drop 16000)
termination_by buf.length
decreasing_by
  simp only [List.length_drop]
  have : buf.length ≠ 0 := fun h => by simp [List.length_eq_zero.mp h] at *
  omega

/-- `const silence = new Int16Array(32000)` (google-assistant-helper.js:54):
32000 zero samples, written once after the frames. -/
def silence : List Int := List.replicate 32000 0

/-- Transport-control command constants of `cast.js` (part of the
repository with unknown file name; exported as `cast.PLAY` etc.). -/
def PLAY : String := "PLAY"

/-- `cast.PAUSE`. -/
def PAUSE : String := "PAUSE"

/-- `cast.STOP`. -/
def STOP : String := "STOP"

/-- `cast.SEEK`. -/
def SEEK : String := "SEEK"

/-- A text-to-speech voice object from the request body (`languageCode`,
`ssmlGender`, optional `name`; an absent `name` renders as the string
"undefined" in the template literal of google-assistant-helper.js:160). -/
structure Voice where
  languageCode : String
  ssmlGender : String
  name : Option String
deriving DecidableEq

/-- Per-user configuration (`config.users[user]`). -/
structure UserCfg where
  relayKey : String
  chromecastFriendlyName : String
deriving DecidableEq

/-- A configured sound (`config.relays.*.sounds[command]`). -/
structure SoundCfg where
  format : String
  path : String
  contentType : String
deriving DecidableEq

/-- The parts of `config.json` the POST dispatcher reads.  A relay's `On`
flag models `relayRoutes[k] != null` (set at startup iff the relay is on;
a missing route aborts the process, so `On` implies the route string).
`staticBase` models `http://ip.address():config.staticServer.port` followed
by `config.staticServer.route`. -/
structure Config where
  users : String → Option UserCfg
  broadcastOn : Bool
  broadcastRoute : String
  broadcastAudioOn : Bool
  broadcastAudioRoute : String
  broadcastAudioSounds : String → Option SoundCfg
  chromecastTTSOn : Bool
  chromecastTTSRoute : String
  ttsCachePath : String
  defaultLanguage : String
  defaultGender : String
  chromecastAudioOn : Bool
  chromecastAudioRoute : String
  chromecastAudioSounds : String → Option SoundCfg
  chromecastURLOn : Bool
  chromecastURLRoute : String
  chromecastControlOn : Bool
  chromecastControlRoute : String
  staticBase : String

/-- An inbound POST request body plus its matched path.  `Option` models a
JSON field being absent or `null` (`== null` in the source matches both).
`currentTime` is modelled as an integer, so the source's
`Number.isInteger(currentTime)` test is identically true here; its JS
truthiness test (`req.body.currentTime &&`) is `t ≠ 0`. -/
structure Request where
  path : String
  command : Option String
  user : Option String
  relayKey : Option String
  delayInSecs : Option Int
  voice : Option Voice
  contentType : Option String
  currentTime : Option Int
  broadcastAudioResponse : Option Bool
deriving DecidableEq

/-- The HTTP response the dispatcher sends. -/
structure Response where
  status : Nat
  result : String
deriving DecidableEq

/-- A downstream invocation the dispatcher performs (possibly deferred by
`setTimeout`; the delay does not change which action runs, so it is not
recorded). -/
inductive RelayAction where
  | sendBroadcastAudio (path user format : String)
  | synthesize (text : String) (voice : Voice)
  | castMedia (target url contentType : String)
  | castControl (target : String) (ctlType : String) (currentTime : Option Int)
  | sendTextInput (text user : String) (broadcastAudioResponse : Option Bool)
deriving DecidableEq

/-- The `SEEK` validation of google-assistant-helper.js:233-235:
`req.body.currentTime` truthy (nonzero), an integer (always, in this
model), and non-negative. -/
def seekTimeOk : Option Int → Bool
  | some t => decide (t ≠ 0 ∧ 0 ≤ t)
  | none => false

/-- `req.body.voice ? req.body.voice : {default language, default gender}`
(google-assistant-helper.js:158-159). -/
def resolvedVoice (cfg : Config) (req : Request) : Voice :=
  match req.voice with
  | some v => v
  | none =>
    { languageCode := cfg.defaultLanguage, ssmlGender := cfg.defaultGender, name := none }

/-- `voiceString` (google-assistant-helper.js:160): the canonical
`languageCode_gender_name` descriptor. -/
def voiceString (v : Voice) : String :=
  v.languageCode ++ "_" ++ v.ssmlGender ++ "_" ++
    (match v.name with | some n => n | none => "undefined")

/-- The cached artifact path for a TTS request:
`cachePath/hash(command + voiceString).mp3` (google-assistant-helper.js:161-163).
`hash` abstracts the SHA-1 hex digest, which is a fixed deterministic
function. -/
def ttsArtifact (hash : String → String) (cfg : Config) (req : Request)
    (command : String) : String :=
  cfg.ttsCachePath ++ "/" ++ hash (command ++ voiceString (resolvedVoice cfg req)) ++ ".mp3"

/-- `path.basename`: the last `/`-separated component. -/
def basename (s : String) : String := (s.splitOn "/").getLastD s

/-- The POST handler `router.post(compositeRoute, ...)`
(google-assistant-helper.js:120-266).  The filesystem state of the TTS
cache is modelled as the list of existing artifact paths (`fs.existsSync`
is membership, the `writeFileSync` of a synthesized response prepends; the
synthesis callback is taken to succeed).  Returns the response, the list of
downstream actions invoked, and the new cache state. -/
def routerPost (hash : String → String) (cfg : Config) (cache : List String)
    (req : Request) : Response × List RelayAction × List String :=
  match req.command, req.user, req.relayKey with
  | some command, some user, some relayKey =>
    (match cfg.users user with
     | some ucfg =>
       if relayKey = ucfg.relayKey then
         if cfg.broadcastAudioOn = true ∧ req.path = cfg.broadcastAudioRoute then
           match cfg.broadcastAudioSounds command with
           | none => ({ status := 500, result := "Server error." }, [], cache)
           | some snd =>
             if snd.format = "LINEAR16" then
               ({ status := 200, result := "Played " ++ command ++ " via broadcast." },
                [RelayAction.sendBroadcastAudio snd.path user snd.format], cache)
             else ({ status := 500, result := "Server error." }, [], cache)
         else if cfg.chromecastTTSOn = true ∧ req.path = cfg.chromecastTTSRoute then
           if ttsArtifact hash cfg req command ∈ cache then
             ({ status := 200, result := "Played " ++ command ++ " via Chromecast." },
              [RelayAction.castMedia ucfg.chromecastFriendlyName
                 (cfg.staticBase ++ "/" ++
                   hash (command ++ voiceString (resolvedVoice cfg req)) ++ ".mp3")
                 "audio/mp3"], cache)
           else
             ({ status := 200, result := "Played " ++ command ++ " via Chromecast." },
              [RelayAction.synthesize command (resolvedVoice cfg req),
               RelayAction.castMedia ucfg.chromecastFriendlyName
                 (cfg.staticBase ++ "/" ++
                   hash (command ++ voiceString (resolvedVoice cfg req)) ++ ".mp3")
                 "audio/mp3"],
              ttsArtifact hash cfg req command :: cache)
         else if cfg.chromecastAudioOn = true ∧ req.path = cfg.chromecastAudioRoute then
           match cfg.chromecastAudioSounds command with
           | none => ({ status := 500, result := "Server error." }, [], cache)
           | some snd =>
             ({ status := 200, result := "Played " ++ command ++ " via Chromecast." },
              [RelayAction.castMedia ucfg.chromecastFriendlyName
                 (cfg.staticBase ++ "/" ++ basename snd.path) snd.contentType], cache)
         else if cfg.chromecastURLOn = true ∧ req.path = cfg.chromecastURLRoute then
           match req.contentType with
           | none => ({ status := 500, result := "Server error, missing contentType." }, [], cache)
           | some ct =>
             if ct = "" then
               ({ status := 500, result := "Server error, missing contentType." }, [], cache)
             else
               ({ status := 200, result := "Played " ++ command ++ " via Chromecast." },
                [RelayAction.castMedia ucfg.chromecastFriendlyName command ct], cache)
         else if cfg.chromecastControlOn = true ∧ req.path = cfg.chromecastControlRoute then
           if command ≠ "" ∧ (command = PLAY ∨ command = PAUSE ∨ command = STOP ∨
               (command = SEEK ∧ seekTimeOk req.currentTime = true)) then
             ({ status := 200,
                result := "Send control request " ++ command ++ " via Chromecast." },
              [RelayAction.castControl ucfg.chromecastFriendlyName command
                 (if command = SEEK then req.currentTime else none)], cache)
           else ({ status := 500, result := "Malfored request." }, [], cache)
         else
           ({ status := 200,
              result := "Executed " ++
                (if cfg.broadcastOn = true ∧ req.path = cfg.broadcastRoute then
                   "broadcast " ++ command
                 else command) },
            [RelayAction.sendTextInput
               (if cfg.broadcastOn = true ∧ req.path = cfg.broadcastRoute then
                  "broadcast " ++ command
                else command) user req.broadcastAudioResponse], cache)
       else ({ status := 403, result := "Access denied." }, [], cache)
     | none => ({ status := 403, result := "Access denied." }, [], cache))
  | _, _, _ => ({ status := 400, result := "Malformed request" }, [], cache)

/-- Decidability of the sample-unit run bound, so concrete buffers can be
checked by `decide`. -/
instance runsBoundedSamplesDec (thr : Int) (B : Nat) (L : List Int) :
    Decidable (runsBoundedSamples thr B L) := by
  unfold runsBoundedSamples
  infer_instance

/-- Loop invariant of the `truncateSilences` scan that suffices for the
no-deletion direction: when `end != null` (`st = some start`), everything
from sample `start` to the end of the scanned prefix `P` is silent. -/
def StInv (thr : Int) (P : List Int) : Option Nat → Prop
  | none => True
  | some start =>
    start ≤ P.length ∧ ∀ j, start ≤ j → j < P.length → silent thr (P.getD j 0) = true

/-- `P` is empty or its last sample is non-silent. -/
def EndsNS (thr : Int) (P : List Int) : Prop :=
  P = [] ∨ silent thr (P.getD (P.length - 1) 0) = false

/-- Every all-silent tail of `P` spans at most `B` bytes. -/
def TailBound (thr : Int) (B : Nat) (P : List Int) : Prop :=
  ∀ i, i ≤ P.length → (∀ j, i ≤ j → j < P.length → silent thr (P.getD j 0) = true) →
    2 * (P.length - i) ≤ B

/-- Full loop invariant of the `truncateSilences` scan, strong enough to
carry the interior run bound: the scanned prefix `P` decomposes at `start`
into an interior-bounded part ending non-silently and a trailing silent
run. -/
def GInv (thr : Int) (maxS : Nat) (P : List Int) : Option Nat → Prop
  | none => interiorBounded thr maxS P ∧ EndsNS thr P
  | some start =>
    start < P.length ∧
    interiorBounded thr maxS (P.take start) ∧
    (start = 0 ∨ silent thr (P.getD (start - 1) 0) = false) ∧
    (∀ j, start ≤ j → j < P.length → silent thr (P.getD j 0) = true)

/-- A sample user configuration used by concrete witnesses. -/
def sampleUser : UserCfg := { relayKey := "k", chromecastFriendlyName := "cc" }

/-- A concrete configuration (TTS and cast-control relays active) used by
concrete witnesses. -/
def sampleCfg : Config :=
  { users := fun u => if u = "alice" then some sampleUser else none
    broadcastOn := false
    broadcastRoute := "/b"
    broadcastAudioOn := false
    broadcastAudioRoute := "/ba"
    broadcastAudioSounds := fun _ => none
    chromecastTTSOn := true
    chromecastTTSRoute := "/tts"
    ttsCachePath := "/cache"
    defaultLanguage := "en-US"
    defaultGender := "FEMALE"
    chromecastAudioOn := false
    chromecastAudioRoute := "/ca"
    chromecastAudioSounds := fun _ => none
    chromecastURLOn := false
    chromecastURLRoute := "/cu"
    chromecastControlOn := true
    chromecastControlRoute := "/ctl"
    staticBase := "http://host:8080/static" }

/-- A concrete TTS request used by concrete witnesses. -/
def sampleTTSReq : Request :=
  { path := "/tts", command := some "hi", user := some "alice", relayKey := some "k"
    delayInSecs := none, voice := none, contentType := none, currentTime := none
    broadcastAudioResponse := none }

/-- A concrete cast-control request used by concrete witnesses and
counterexamples. -/
def sampleSeekReq (t : Option Int) : Request :=
  { path := "/ctl", command := some "SEEK", user := some "alice", relayKey := some "k"
    delayInSecs := none, voice := none, contentType := none, currentTime := t
    broadcastAudioResponse := none }

theorem getD_append_lt (l l' : List Int) (j : Nat) (h : j < l.length) :
    (l ++ l').getD j 0 = l.getD j 0 :=
  List.getD_append l l' 0 j h

theorem getD_append_ge (l l' : List Int) (j : Nat) (h : l.length ≤ j) :
    (l ++ l').getD j 0 = l'.getD (j - l.length) 0 :=
  List.getD_append_right l l' 0 j h

theorem getD_snoc_last (l : List Int) (s : Int) :
    (l ++ [s]).getD l.length 0 = s := by
  rw [getD_append_ge l [s] l.length (le_refl _)]
  simp

theorem getD_take_lt (l : List Int) (m j : Nat) (hj : j < m) (hl : j < l.length) :
    (l.take m).getD j 0 = l.getD j 0 := by
  have hlen : j < (l.take m).length := by
    simp [List.length_take]
    omega
  rw [List.getD_eq_getElem _ _ hlen, List.getD_eq_getElem _ _ hl]
  simp

theorem getD_drop (l : List Int) (m j : Nat) (h : m + j < l.length) :
    (l.drop m).getD j 0 = l.getD (m + j) 0 := by
  have hlen : j < (l.drop m).length := by
    simp [List.length_drop]
    omega
  rw [List.getD_eq_getElem _ _ hlen, List.getD_eq_getElem _ _ h]
  exact (List.getElem_drop' l h).symm

theorem silent_getD_of_forall {thr : Int} {L : List Int}
    (h : ∀ x ∈ L, silent thr x = true) {j : Nat} (hj : j < L.length) :
    silent thr (L.getD j 0) = true := by
  rw [List.getD_eq_getElem _ _ hj]
  exact h _ (List.getElem_mem hj)

theorem interiorBounded_of_allSilent {thr : Int} {B : Nat} {L : List Int}
    (h : ∀ x ∈ L, silent thr x = true) : interiorBounded thr B L := by
  intro i n hlen hsil hns
  rw [silent_getD_of_forall h hlen] at hns
  cases hns

theorem truncGo_length_le (thr : Int) (maxS : Nat) :
    ∀ (R P : List Int) (st : Option Nat),
      (truncGo thr maxS P R st).length ≤ P.length + R.length := by
  intro R
  induction R with
  | nil => intro P st; simp [truncGo]
  | cons s R ih =>
    intro P st
    simp only [truncGo]
    split
    · have h := ih (P ++ [s]) (some (st.getD P.length))
      simp only [List.length_append, List.length_cons, List.length_nil] at *
      omega
    · match st with
      | some start =>
        simp only
        split
        · have h := ih ((P.take start ++
            P.drop (start + (2 * P.length - 2 * start - maxS) / 2)) ++ [s]) none
          simp only [List.length_append, List.length_cons, List.length_nil,
            List.length_take, List.length_drop] at *
          omega
        · have h := ih (P ++ [s]) none
          simp only [List.length_append, List.length_cons, List.length_nil] at *
          omega
      | none =>
        have h := ih (P ++ [s]) none
        simp only [List.length_append, List.length_cons, List.length_nil] at *
        omega

theorem truncateSilences_length_le (buf : List Int) (maxS : Nat) (thr : Int) :
    (truncateSilences buf maxS thr).length ≤ buf.length := by
  have h := truncGo_length_le thr maxS buf [] none
  simpa [truncateSilences] using h

theorem truncGo_eq_of_interiorBounded (thr : Int) (maxS : Nat) :
    ∀ (R P : List Int) (st : Option Nat),
      interiorBounded thr maxS (P ++ R) →
      StInv thr P st →
      truncGo thr maxS P R st = P ++ R := by
  intro R
  induction R with
  | nil => intro P st _ _; simp [truncGo]
  | cons s R ih =>
    intro P st hIB hSt
    have happ : (P ++ [s]) ++ R = P ++ s :: R := by simp
    have hIB' : interiorBounded thr maxS ((P ++ [s]) ++ R) := by rw [happ]; exact hIB
    simp only [truncGo]
    split
    case isTrue hsil =>
      have hst' : StInv thr (P ++ [s]) (some (st.getD P.length)) := by
        cases st with
        | none =>
          refine ⟨by simp, ?_⟩
          intro j hj1 hj2
          simp only [Option.getD_none] at hj1
          simp only [List.length_append, List.length_cons, List.length_nil] at hj2
          have hjeq : j = P.length := by omega
          subst hjeq
          rw [getD_snoc_last]
          exact hsil
        | some start =>
          obtain ⟨h1, h2⟩ := hSt
          refine ⟨by simp [Nat.le_succ_of_le h1], ?_⟩
          intro j hj1 hj2
          simp only [Option.getD_some] at hj1
          simp only [List.length_append, List.length_cons, List.length_nil] at hj2
          rcases Nat.lt_or_ge j P.length with hlt | hge
          · rw [getD_append_lt _ _ _ hlt]
            exact h2 j hj1 hlt
          · have hjeq : j = P.length := by omega
            subst hjeq
            rw [getD_snoc_last]
            exact hsil
      rw [ih (P ++ [s]) (some (st.getD P.length)) hIB' hst', happ]
    case isFalse hns =>
      simp only [Bool.not_eq_true] at hns
      cases st with
      | none =>
        rw [ih (P ++ [s]) none hIB' trivial, happ]
      | some start =>
        obtain ⟨h1, h2⟩ := hSt
        simp only
        have hb : 2 * (P.length - start) ≤ maxS := by
          apply hIB start (P.length - start)
          · simp only [List.length_append, List.length_cons]
            omega
          · intro k hk
            have hlt : start + k < P.length := by omega
            rw [getD_append_lt _ _ _ hlt]
            exact h2 _ (by omega) hlt
          · have heq : start + (P.length - start) = P.length := by omega
            rw [heq, getD_append_ge P (s :: R) P.length (le_refl _)]
            simpa using hns
        rw [if_neg (by omega : ¬ 2 * P.length - 2 * start > maxS)]
        rw [ih (P ++ [s]) none hIB' trivial, happ]

theorem truncateSilences_eq_of_interiorBounded {buf : List Int} {maxS : Nat} {thr : Int}
    (h : interiorBounded thr maxS buf) : truncateSilences buf maxS thr = buf := by
  have h2 := truncGo_eq_of_interiorBounded thr maxS buf [] none (by simpa using h) trivial
  simpa [truncateSilences] using h2

theorem truncateSilences_of_allSilent {buf : List Int} {maxS : Nat} {thr : Int}
    (h : ∀ x ∈ buf, silent thr x = true) : truncateSilences buf maxS thr = buf :=
  truncateSilences_eq_of_interiorBounded (interiorBounded_of_allSilent h)

theorem interiorBounded_append_silent {thr : Int} {B : Nat} {Q run : List Int}
    (hQ : interiorBounded thr B Q) (hrun : ∀ x ∈ run, silent thr x = true) :
    interiorBounded thr B (Q ++ run) := by
  intro i n hlen hsil hns
  simp only [List.length_append] at hlen
  have hin : i + n < Q.length := by
    by_contra hge
    push_neg at hge
    rw [getD_append_ge Q run _ hge] at hns
    have hr : i + n - Q.length < run.length := by omega
    rw [silent_getD_of_forall hrun hr] at hns
    cases hns
  apply hQ i n hin
  · intro k hk
    have := hsil k hk
    rwa [getD_append_lt Q run _ (by omega)] at this
  · rwa [getD_append_lt Q run _ hin] at hns

theorem interiorBounded_snoc_nonSilent {thr : Int} {B : Nat} {P : List Int} {x : Int}
    (hP : interiorBounded thr B P) (ht : TailBound thr B P)
    (_hx : silent thr x = false) : interiorBounded thr B (P ++ [x]) := by
  intro i n hlen hsil hns
  simp only [List.length_append, List.length_cons, List.length_nil] at hlen
  rcases Nat.lt_or_ge (i + n) P.length with hin | hend
  · apply hP i n hin
    · intro k hk
      have := hsil k hk
      rwa [getD_append_lt P [x] _ (by omega)] at this
    · rwa [getD_append_lt P [x] _ hin] at hns
  · have heq : i + n = P.length := by omega
    have hbnd := ht i (by omega) ?_
    · omega
    · intro j hj1 hj2
      have := hsil (j - i) (by omega)
      rw [getD_append_lt P [x] _ (by omega : i + (j - i) < P.length)] at this
      have hji : i + (j - i) = j := by omega
      rwa [hji] at this

theorem tailBound_of_endsNS {thr : Int} {B : Nat} {P : List Int}
    (h : EndsNS thr P) : TailBound thr B P := by
  intro i hi hsil
  rcases h with hnil | hlast
  · subst hnil
    simp only [List.length_nil] at hi ⊢
    omega
  · rcases Nat.lt_or_ge i P.length with hlt | hge
    · have hlen0 : 0 < P.length := by omega
      have := hsil (P.length - 1) (by omega) (by omega)
      rw [this] at hlast
      cases hlast
    · have : P.length - i = 0 := by omega
      omega

theorem tailBound_of_runInv {thr : Int} {B : Nat} {P : List Int} (start : Nat)
    (hle : start ≤ P.length)
    (hbd : start = 0 ∨ silent thr (P.getD (start - 1) 0) = false)
    (hbound : 2 * (P.length - start) ≤ B) : TailBound thr B P := by
  intro i hi hsil
  have hstart : start ≤ i := by
    rcases hbd with h0 | hlast
    · omega
    · by_contra hlt
      push_neg at hlt
      rcases Nat.eq_zero_or_pos start with h0 | hpos
      · omega
      · have := hsil (start - 1) (by omega) (by omega)
        rw [this] at hlast
        cases hlast
  omega

theorem endsNS_snoc (thr : Int) (P : List Int) (x : Int)
    (hx : silent thr x = false) : EndsNS thr (P ++ [x]) := by
  right
  have h : (P ++ [x]).length - 1 = P.length := by simp
  rw [h, getD_snoc_last]
  exact hx

theorem allSilent_drop {thr : Int} {P : List Int} {start : Nat}
    (hrun : ∀ j, start ≤ j → j < P.length → silent thr (P.getD j 0) = true)
    {m : Nat} (hm : start ≤ m) : ∀ x ∈ P.drop m, silent thr x = true := by
  intro x hx
  obtain ⟨k, hk, hkx⟩ := List.mem_iff_getElem.mp hx
  simp only [List.length_drop] at hk
  have hk2 : m + k < P.length := by omega
  have := hrun (m + k) (by omega) hk2
  rw [List.getD_eq_getElem _ _ hk2] at this
  rw [← hkx]
  rw [List.getElem_drop P]
  exact this

theorem interiorBounded_nil (thr : Int) (B : Nat) : interiorBounded thr B [] := by
  intro i n hlen
  simp at hlen

theorem truncGo_interiorBounded (thr : Int) (maxS : Nat) (h2 : 2 ∣ maxS) :
    ∀ (R P : List Int) (st : Option Nat), GInv thr maxS P st →
      interiorBounded thr maxS (truncGo thr maxS P R st) := by
  intro R
  induction R with
  | nil =>
    intro P st hG
    cases st with
    | none => exact hG.1
    | some start =>
      obtain ⟨hlt, hQ, hbd, hrun⟩ := hG
      have hdecomp : P.take start ++ P.drop start = P := List.take_append_drop start P
      have := interiorBounded_append_silent hQ (allSilent_drop hrun (le_refl start))
      rw [hdecomp] at this
      simpa [truncGo] using this
  | cons s R ih =>
    intro P st hG
    simp only [truncGo]
    split
    case isTrue hsil =>
      apply ih
      cases st with
      | none =>
        obtain ⟨hIB, hEnds⟩ := hG
        simp only [Option.getD_none]
        refine ⟨by simp, ?_, ?_, ?_⟩
        · rw [List.take_left']
          · exact hIB
          · rfl
        · rcases Nat.eq_zero_or_pos P.length with h0 | hpos
          · exact Or.inl h0
          · rcases hEnds with hnil | hlast
            · rw [hnil] at hpos
              simp at hpos
            · right
              rw [getD_append_lt P [s] _ (by omega)]
              exact hlast
        · intro j hj1 hj2
          simp only [List.length_append, List.length_cons, List.length_nil] at hj2
          have hjeq : j = P.length := by omega
          subst hjeq
          rw [getD_snoc_last]
          exact hsil
      | some start =>
        obtain ⟨hlt, hQ, hbd, hrun⟩ := hG
        simp only [Option.getD_some]
        refine ⟨by simp; omega, ?_, ?_, ?_⟩
        · rw [List.take_append_of_le_length (by omega)]
          exact hQ
        · rcases hbd with h0 | hlast
          · exact Or.inl h0
          · right
            rw [getD_append_lt P [s] _ (by omega)]
            exact hlast
        · intro j hj1 hj2
          simp only [List.length_append, List.length_cons, List.length_nil] at hj2
          rcases Nat.lt_or_ge j P.length with hjlt | hjge
          · rw [getD_append_lt P [s] _ hjlt]
            exact hrun j hj1 hjlt
          · have hjeq : j = P.length := by omega
            subst hjeq
            rw [getD_snoc_last]
            exact hsil
    case isFalse hns =>
      simp only [Bool.not_eq_true] at hns
      cases st with
      | none =>
        obtain ⟨hIB, hEnds⟩ := hG
        apply ih
        exact ⟨interiorBounded_snoc_nonSilent hIB (tailBound_of_endsNS hEnds) hns,
          endsNS_snoc thr P s hns⟩
      | some start =>
        obtain ⟨hlt, hQ, hbd, hrun⟩ := hG
        simp only
        split
        case isTrue hgt =>
          apply ih
          obtain ⟨half, hhalf⟩ := h2
          have hdiv : start + (2 * P.length - 2 * start - maxS) / 2 = P.length - half := by
            omega
          rw [hdiv]
          have hhl : start ≤ P.length - half := by omega
          have hlen2 : half ≤ P.length := by omega
          have hIBfull : interiorBounded thr maxS (P.take start ++ P.drop (P.length - half)) :=
            interiorBounded_append_silent hQ (allSilent_drop hrun hhl)
          have htake : (P.take start).length = start := by
            simp [List.length_take]
            omega
          have hdroplen : (P.drop (P.length - half)).length = half := by
            simp [List.length_drop]
            omega
          have htb : TailBound thr maxS (P.take start ++ P.drop (P.length - half)) := by
            apply tailBound_of_runInv start
            · simp only [List.length_append, htake, hdroplen]
              omega
            · rcases Nat.eq_zero_or_pos start with hz | hpos
              · exact Or.inl hz
              · rcases hbd with h0 | hlast
                · exact Or.inl h0
                · right
                  have h1 : start - 1 < (P.take start).length := by
                    rw [htake]
                    omega
                  rw [getD_append_lt _ _ _ h1]
                  rw [getD_take_lt P start (start - 1) (by omega) (by omega)]
                  exact hlast
            · simp only [List.length_append, htake, hdroplen]
              omega
          exact ⟨interiorBounded_snoc_nonSilent hIBfull htb hns,
            endsNS_snoc thr _ s hns⟩
        case isFalse hng =>
          apply ih
          push_neg at hng
          have hIBP : interiorBounded thr maxS P := by
            have hdecomp : P.take start ++ P.drop start = P := List.take_append_drop start P
            have := interiorBounded_append_silent hQ (allSilent_drop hrun (le_refl start))
            rwa [hdecomp] at this
          have htb : TailBound thr maxS P :=
            tailBound_of_runInv start (by omega) hbd (by omega)
          exact ⟨interiorBounded_snoc_nonSilent hIBP htb hns,
            endsNS_snoc thr P s hns⟩

theorem truncateSilences_interiorBounded (buf : List Int) (maxS : Nat) (thr : Int)
    (h2 : 2 ∣ maxS) : interiorBounded thr maxS (truncateSilences buf maxS thr) :=
  truncGo_interiorBounded thr maxS h2 buf [] none
    ⟨interiorBounded_nil thr maxS, Or.inl rfl⟩

theorem truncateSilences_idem (buf : List Int) (maxS : Nat) (thr : Int)
    (h2 : 2 ∣ maxS) :
    truncateSilences (truncateSilences buf maxS thr) maxS thr =
      truncateSilences buf maxS thr :=
  truncateSilences_eq_of_interiorBounded (truncateSilences_interiorBounded buf maxS thr h2)

theorem chunkGo_ok (thr : Int) (minS maxLen : Nat) :
    ∀ (fuel : Nat) (bufs : List (List Int)) (buf : List Int) (startAt : Nat)
      (out : List (List Int)),
      chunkGo thr minS maxLen fuel bufs buf startAt = .ok out →
      out.flatten = bufs.flatten ++ buf ∧ out ≠ [] ∧
        ∃ r, out.getLast? = some r ∧ r.IsSuffix buf := by
  intro fuel
  induction fuel with
  | zero =>
    intro bufs buf startAt out h
    simp [chunkGo] at h
  | succ fuel ih =>
    intro bufs buf startAt out h
    simp only [chunkGo] at h
    cases hscan : scanChunk thr minS maxLen (buf.drop startAt) startAt none [] with
    | finished =>
      rw [hscan] at h
      simp only [ChunkResult.ok.injEq] at h
      subst h
      exact ⟨by simp, by simp, buf, List.getLast?_concat _, List.suffix_refl buf⟩
    | throwErr =>
      rw [hscan] at h
      simp at h
    | cut m =>
      rw [hscan] at h
      simp only at h
      obtain ⟨hjoin, hne, r, hlast, hsuf⟩ := ih (bufs ++ [buf.take m]) (buf.drop m) 1 out h
      refine ⟨?_, hne, r, hlast, hsuf.trans (List.drop_suffix m buf)⟩
      rw [hjoin]
      have hj : (bufs ++ [buf.take m]).flatten = bufs.flatten ++ buf.take m := by simp
      rw [hj, List.append_assoc, List.take_append_drop]

theorem chunkBuffer_ok {buf : List Int} {minS maxLen : Nat} {thr : Int}
    {out : List (List Int)} (h : chunkBuffer buf minS maxLen thr = .ok out) :
    out.flatten = buf ∧ out ≠ [] ∧ ∃ r, out.getLast? = some r ∧ r.IsSuffix buf := by
  have h2 := chunkGo_ok thr minS maxLen (buf.length + 1) [] buf 0 out h
  simpa using h2

theorem scanChunk_throw_of_firstClosure (thr : Int) (minS maxLen : Nat) :
    ∀ (R : List Int) (i : Nat) (st : Option (Nat × Nat)) (c : Nat),
      firstClosure thr minS R i st = some c → maxLen ≤ c →
      scanChunk thr minS maxLen R i st [] = .throwErr := by
  intro R
  induction R with
  | nil =>
    intro i st c h
    simp [firstClosure] at h
  | cons s R ih =>
    intro i st c h hle
    by_cases hsil : silent thr s = true
    · simp only [firstClosure, hsil, if_true] at h
      simp only [scanChunk, hsil, if_true]
      exact ih _ _ _ h hle
    · have hsf : silent thr s = false := by simpa using hsil
      simp [firstClosure, hsf] at h
      simp only [scanChunk, hsf, Bool.false_eq_true, if_false]
      cases st with
      | none =>
        simp only at h ⊢
        exact ih _ _ _ h hle
      | some p =>
        obtain ⟨st0, en⟩ := p
        simp only at h ⊢
        by_cases hq : 2 * (en - st0) + 2 > minS
        · rw [if_pos hq] at h
          rw [if_pos hq]
          simp only [Option.some.injEq] at h
          subst h
          rw [if_neg (by omega)]
        · rw [if_neg hq] at h
          rw [if_neg hq]
          exact ih _ _ _ h hle

theorem scanChunk_finished_of_firstClosure (thr : Int) (minS maxLen : Nat) :
    ∀ (R : List Int) (i : Nat) (st : Option (Nat × Nat)) (marks : List Nat),
      firstClosure thr minS R i st = none →
      scanChunk thr minS maxLen R i st marks = .finished := by
  intro R
  induction R with
  | nil =>
    intro i st marks _
    simp [scanChunk]
  | cons s R ih =>
    intro i st marks h
    by_cases hsil : silent thr s = true
    · simp only [firstClosure, hsil, if_true] at h
      simp only [scanChunk, hsil, if_true]
      exact ih _ _ _ h
    · have hsf : silent thr s = false := by simpa using hsil
      simp [firstClosure, hsf] at h
      simp only [scanChunk, hsf, Bool.false_eq_true, if_false]
      cases st with
      | none =>
        simp only at h ⊢
        exact ih _ _ _ h
      | some p =>
        obtain ⟨st0, en⟩ := p
        simp only at h ⊢
        by_cases hq : 2 * (en - st0) + 2 > minS
        · rw [if_pos hq] at h
          simp at h
        · rw [if_neg hq] at h
          rw [if_neg hq]
          exact ih _ _ _ h

theorem chunkBuffer_throw {buf : List Int} {minS maxLen : Nat} {thr : Int} {c : Nat}
    (h : firstClosure thr minS buf 0 none = some c) (hle : maxLen ≤ c) :
    chunkBuffer buf minS maxLen thr = .chunkingImpossible := by
  have hs := scanChunk_throw_of_firstClosure thr minS maxLen buf 0 none c h hle
  simp only [chunkBuffer, chunkGo, List.drop_zero, hs]

theorem chunkBuffer_noClosure {buf : List Int} {minS maxLen : Nat} {thr : Int}
    (h : firstClosure thr minS buf 0 none = none) :
    chunkBuffer buf minS maxLen thr = .ok [buf] := by
  have hs := scanChunk_finished_of_firstClosure thr minS maxLen buf 0 none [] h
  simp only [chunkBuffer, chunkGo, List.drop_zero, hs]
  simp

theorem framesOf_join (buf : List Nat) : (framesOf buf).flatten = buf := by
  generalize hn : buf.length = n
  induction n using Nat.strong_induction_on generalizing buf with
  | _ n ih =>
    rw [framesOf]
    split
    case isTrue h =>
      rw [h]
      simp
    case isFalse h =>
      subst hn
      have hne : buf.length ≠ 0 := fun h0 => h (List.length_eq_zero.mp h0)
      have hlt : (buf.drop 16000).length < buf.length := by
        simp only [List.length_drop]
        omega
      rw [List.flatten_cons, ih (buf.drop 16000).length hlt (buf.drop 16000) rfl,
        List.take_append_drop]

theorem routerPost_authFail (hash : String → String) (cfg : Config) (cache : List String)
    (req : Request) (c u k : String)
    (hc : req.command = some c) (hu : req.user = some u) (hk : req.relayKey = some k)
    (hauth : cfg.users u = none ∨ ∃ uc, cfg.users u = some uc ∧ k ≠ uc.relayKey) :
    routerPost hash cfg cache req =
      ({ status := 403, result := "Access denied." }, [], cache) := by
  simp only [routerPost, hc, hu, hk]
  rcases hauth with hnone | ⟨uc, huc, hne⟩
  · rw [hnone]
  · rw [huc]
    simp only [if_neg hne]

theorem routerPost_not400 (hash : String → String) (cfg : Config) (cache : List String)
    (req : Request) (c u k : String)
    (hc : req.command = some c) (hu : req.user = some u) (hk : req.relayKey = some k) :
    (routerPost hash cfg cache req).1.status ≠ 400 := by
  simp only [routerPost, hc, hu, hk]
  cases cfg.users u with
  | none => simp
  | some uc =>
    simp only
    repeat' split
    all_goals simp

theorem routerPost_status400_iff (hash : String → String) (cfg : Config)
    (cache : List String) (req : Request) :
    (routerPost hash cfg cache req).1.status = 400 ↔
      (req.command = none ∨ req.user = none ∨ req.relayKey = none) := by
  cases hc : req.command with
  | none =>
    simp only [routerPost, hc]
    cases req.user <;> cases req.relayKey <;> simp
  | some c =>
    cases hu : req.user with
    | none =>
      simp only [routerPost, hc, hu]
      cases req.relayKey <;> simp
    | some u =>
      cases hk : req.relayKey with
      | none => simp [routerPost, hc, hu, hk]
      | some k =>
        constructor
        · intro h
          exact absurd h (routerPost_not400 hash cfg cache req c u k hc hu hk)
        · intro h
          rcases h with h | h | h
          all_goals cases h

theorem routerPost_control (hash : String → String) (cfg : Config) (cache : List String)
    (req : Request) (c u k : String) (uc : UserCfg)
    (hc : req.command = some c) (hu : req.user = some u) (hk : req.relayKey = some k)
    (huc : cfg.users u = some uc) (hkey : k = uc.relayKey)
    (hba : ¬(cfg.broadcastAudioOn = true ∧ req.path = cfg.broadcastAudioRoute))
    (htts : ¬(cfg.chromecastTTSOn = true ∧ req.path = cfg.chromecastTTSRoute))
    (hca : ¬(cfg.chromecastAudioOn = true ∧ req.path = cfg.chromecastAudioRoute))
    (hurl : ¬(cfg.chromecastURLOn = true ∧ req.path = cfg.chromecastURLRoute))
    (hctl : cfg.chromecastControlOn = true) (hpath : req.path = cfg.chromecastControlRoute) :
    routerPost hash cfg cache req =
      if c ≠ "" ∧ (c = PLAY ∨ c = PAUSE ∨ c = STOP ∨
          (c = SEEK ∧ seekTimeOk req.currentTime = true)) then
        ({ status := 200, result := "Send control request " ++ c ++ " via Chromecast." },
         [RelayAction.castControl uc.chromecastFriendlyName c
            (if c = SEEK then req.currentTime else none)], cache)
      else ({ status := 500, result := "Malfored request." }, [], cache) := by
  simp only [routerPost, hc, hu, hk, huc]
  rw [if_pos hkey, if_neg hba, if_neg htts, if_neg hca, if_neg hurl,
    if_pos (And.intro hctl hpath)]

theorem routerPost_tts (hash : String → String) (cfg : Config) (cache : List String)
    (req : Request) (c u k : String) (uc : UserCfg)
    (hc : req.command = some c) (hu : req.user = some u) (hk : req.relayKey = some k)
    (huc : cfg.users u = some uc) (hkey : k = uc.relayKey)
    (hba : ¬(cfg.broadcastAudioOn = true ∧ req.path = cfg.broadcastAudioRoute))
    (htts : cfg.chromecastTTSOn = true) (hpath : req.path = cfg.chromecastTTSRoute) :
    routerPost hash cfg cache req =
      if ttsArtifact hash cfg req c ∈ cache then
        ({ status := 200, result := "Played " ++ c ++ " via Chromecast." },
         [RelayAction.castMedia uc.chromecastFriendlyName
            (cfg.staticBase ++ "/" ++
              hash (c ++ voiceString (resolvedVoice cfg req)) ++ ".mp3") "audio/mp3"],
         cache)
      else
        ({ status := 200, result := "Played " ++ c ++ " via Chromecast." },
         [RelayAction.synthesize c (resolvedVoice cfg req),
          RelayAction.castMedia uc.chromecastFriendlyName
            (cfg.staticBase ++ "/" ++
              hash (c ++ voiceString (resolvedVoice cfg req)) ++ ".mp3") "audio/mp3"],
         ttsArtifact hash cfg req c :: cache) := by
  simp only [routerPost, hc, hu, hk, huc]
  rw [if_pos hkey, if_neg hba, if_pos (And.intro htts hpath)]

theorem routerPost_tts_cache_mem (hash : String → String) (cfg : Config)
    (cache : List String) (req : Request) (c u k : String) (uc : UserCfg)
    (hc : req.command = some c) (hu : req.user = some u) (hk : req.relayKey = some k)
    (huc : cfg.users u = some uc) (hkey : k = uc.relayKey)
    (hba : ¬(cfg.broadcastAudioOn = true ∧ req.path = cfg.broadcastAudioRoute))
    (htts : cfg.chromecastTTSOn = true) (hpath : req.path = cfg.chromecastTTSRoute) :
    ttsArtifact hash cfg req c ∈ (routerPost hash cfg cache req).2.2 := by
  rw [routerPost_tts hash cfg cache req c u k uc hc hu hk huc hkey hba htts hpath]
  by_cases hmem : ttsArtifact hash cfg req c ∈ cache
  · rw [if_pos hmem]
    exact hmem
  · rw [if_neg hmem]
    exact List.mem_cons_self _ _

/-- C1 (amended): for buffers of samples and even `maxSilenceSamples` (the
deployed value is 8000), the output of `truncateSilences` is no longer than
the input, and every maximal silent run that is followed by a non-silent
sample occupies at most `maxSilenceSamples` bytes (so at most
`maxSilenceSamples / 2 ≤ maxSilenceSamples` samples); a silent run that
extends to the end of the buffer is never truncated. -/
theorem C1_truncateSilences_runs (buf : List Int) (maxS : Nat) (thr : Int)
    (h2 : 2 ∣ maxS) :
    (truncateSilences buf maxS thr).length ≤ buf.length ∧
    interiorBounded thr maxS (truncateSilences buf maxS thr) :=
  ⟨truncateSilences_length_le buf maxS thr,
   truncateSilences_interiorBounded buf maxS thr h2⟩

/-- Witness for C1 at the concrete buffer `[0, 200]`. -/
theorem C1_truncateSilences_runs_witness :
    2 ∣ 2 ∧ ((truncateSilences [0, 200] 2 100).length ≤ 2 ∧
      interiorBounded 100 2 (truncateSilences [0, 200] 2 100)) :=
  ⟨by decide, C1_truncateSilences_runs [0, 200] 2 100 (by decide)⟩

/-- C1 counterexample: the all-silent buffer `[0, 0, 0]` with
`maxSilenceSamples = 2` is returned unchanged, so its maximal silent run has
3 > 2 samples even though the output length is within bounds: the claim
"every maximal run of consecutive silent samples has length at most
maxSilenceSamples" is false for trailing runs. -/
theorem C1_counterexample :
    ¬ (runsBoundedSamples 100 2 (truncateSilences [0, 0, 0] 2 100) ∧
       (truncateSilences [0, 0, 0] 2 100).length ≤ 3) := by
  decide

/-- C2 (amended): a buffer all of whose samples are silent is returned
unchanged by `truncateSilences` (the scan only ever truncates a run when a
non-silent sample closes it, so an entirely silent buffer is never
truncated). -/
theorem C2_allSilent_unchanged (buf : List Int) (maxS : Nat) (thr : Int)
    (h : ∀ x ∈ buf, silent thr x = true) :
    truncateSilences buf maxS thr = buf :=
  truncateSilences_of_allSilent h

/-- Witness for C2 at the all-silent buffer `[0, 0, 0]`. -/
theorem C2_allSilent_unchanged_witness :
    (∀ x ∈ ([0, 0, 0] : List Int), silent 100 x = true) ∧
      truncateSilences [0, 0, 0] 2 100 = [0, 0, 0] :=
  ⟨by decide, C2_allSilent_unchanged [0, 0, 0] 2 100 (by decide)⟩

/-- C2 counterexample: the entirely silent buffer `[0, 0, 0, 0]` with
`maxSilenceSamples = 2` does not truncate to exactly 2 silent samples —
it is returned whole (length 4). -/
theorem C2_counterexample :
    (∀ x ∈ ([0, 0, 0, 0] : List Int), silent 100 x = true) ∧
    (truncateSilences [0, 0, 0, 0] 2 100).length ≠ 2 := by
  decide

/-- C3 (amended): `truncateSilences` compares run lengths in bytes, not
samples: a buffer whose silent runs followed by non-silent samples all span
at most `maxSilenceSamples` bytes (2 bytes per sample) is returned
unchanged, and for even `maxSilenceSamples` the function is idempotent. -/
theorem C3_unchanged_idem (buf : List Int) (maxS : Nat) (thr : Int) :
    (interiorBounded thr maxS buf → truncateSilences buf maxS thr = buf) ∧
    (2 ∣ maxS →
      truncateSilences (truncateSilences buf maxS thr) maxS thr =
        truncateSilences buf maxS thr) :=
  ⟨fun h => truncateSilences_eq_of_interiorBounded h,
   fun h2 => truncateSilences_idem buf maxS thr h2⟩

/-- Witness for C3 at the concrete buffers `[0, 0]` and `[0, 0, 0]`. -/
theorem C3_unchanged_idem_witness :
    truncateSilences [0, 0] 2 100 = [0, 0] ∧
    truncateSilences (truncateSilences [0, 0, 0] 2 100) 2 100 =
      truncateSilences [0, 0, 0] 2 100 :=
  ⟨(C3_unchanged_idem [0, 0] 2 100).1
      (interiorBounded_of_allSilent (by decide)),
   (C3_unchanged_idem [0, 0, 0] 2 100).2 (by decide)⟩

/-- C3 counterexample: in the buffer `[0, 0, 200]` with
`maxSilenceSamples = 2` no silent run exceeds 2 samples, yet the buffer is
modified (the run spans 4 bytes and the code compares bytes against
`maxSilenceSamples`), so "no run exceeding maxSilenceSamples is returned
unchanged" is false under the sample reading. -/
theorem C3_counterexample :
    runsBoundedSamples 100 2 [0, 0, 200] ∧
    truncateSilences [0, 0, 200] 2 100 ≠ [0, 0, 200] := by
  decide

/-- C4 (confirmed): whenever `chunkBuffer` succeeds, the concatenation of
the emitted chunks equals the original buffer, at least one chunk is
emitted, and the last chunk is the final remainder (a suffix of the
buffer). -/
theorem C4_chunkBuffer_concat (buf : List Int) (minS maxLen : Nat) (thr : Int)
    (out : List (List Int)) (h : chunkBuffer buf minS maxLen thr = .ok out) :
    out.flatten = buf ∧ out ≠ [] ∧ ∃ r, out.getLast? = some r ∧ r.IsSuffix buf :=
  chunkBuffer_ok h

/-- Witness for C4 on a buffer that splits into two chunks. -/
theorem C4_chunkBuffer_concat_witness :
    ([[200, 0, 0], [200, 0, 0, 200]] : List (List Int)).flatten =
      [200, 0, 0, 200, 0, 0, 200] ∧
    ([[200, 0, 0], [200, 0, 0, 200]] : List (List Int)) ≠ [] ∧
    ∃ r, ([[200, 0, 0], [200, 0, 0, 200]] : List (List Int)).getLast? = some r ∧
      r.IsSuffix [200, 0, 0, 200, 0, 0, 200] :=
  C4_chunkBuffer_concat [200, 0, 0, 200, 0, 0, 200] 2 8 100
    [[200, 0, 0], [200, 0, 0, 200]] (by decide)

/-- C5 (amended): `chunkBuffer` fails with `ChunkingImpossible`, emitting
no chunk, whenever the scan's first silence-window closure (span
`end - start + 2 > minSilenceSamples` bytes, windows may bridge short
gaps) occurs at a byte position at or beyond `maxChunkLength` — then no
candidate cut point has been recorded when the bound is crossed.  If no
window ever closes — in particular when the buffer, however long, contains
no silence — the whole buffer is returned as one (possibly over-long)
chunk instead of failing.  (Failure can additionally arise on a later
segment after earlier successful cuts; this theorem asserts the two
unconditional guarantees above.) -/
theorem C5_chunkingImpossible (buf : List Int) (minS maxLen : Nat) (thr : Int) :
    (∀ c, firstClosure thr minS buf 0 none = some c → maxLen ≤ c →
      chunkBuffer buf minS maxLen thr = .chunkingImpossible) ∧
    (firstClosure thr minS buf 0 none = none →
      chunkBuffer buf minS maxLen thr = .ok [buf]) :=
  ⟨fun _ h hle => chunkBuffer_throw h hle, fun h => chunkBuffer_noClosure h⟩

/-- Witness for C5: `[0, 0, 200]` with `minSilenceSamples = 2` and
`maxChunkLength = 2` fails, while the silence-free `[200]` is returned
whole. -/
theorem C5_chunkingImpossible_witness :
    chunkBuffer [0, 0, 200] 2 2 100 = .chunkingImpossible ∧
    chunkBuffer [200] 2 2 100 = .ok [[200]] :=
  ⟨(C5_chunkingImpossible [0, 0, 200] 2 2 100).1 4 (by decide) (by decide),
   (C5_chunkingImpossible [200] 2 2 100).2 (by decide)⟩

/-- C5 counterexample: a buffer of five non-silent samples (10 bytes, longer
than `maxChunkLength = 4`) with no silent run at all is returned as a single
over-long chunk, not rejected with `ChunkingImpossible` as the claim
requires. -/
theorem C5_counterexample :
    chunkBuffer [200, 200, 200, 200, 200] 2 4 100 =
      .ok [[200, 200, 200, 200, 200]] ∧
    2 * ([200, 200, 200, 200, 200] : List Int).length > 4 ∧
    (∀ x ∈ ([200, 200, 200, 200, 200] : List Int), silent 100 x = false) := by
  decide

/-- C6 (confirmed, sequential semantics with successful synthesis): two
authenticated TTS requests with identical text and identical resolved
voice yield the same artifact path, and after the first request has
completed, the second finds the artifact cached and performs no synthesis
call. -/
theorem C6_ttsCache (hash : String → String) (cfg : Config) (cache : List String)
    (req1 req2 : Request) (t u1 u2 k1 k2 : String) (uc1 uc2 : UserCfg)
    (hc1 : req1.command = some t) (hu1 : req1.user = some u1)
    (hk1 : req1.relayKey = some k1) (huc1 : cfg.users u1 = some uc1)
    (hkey1 : k1 = uc1.relayKey)
    (hba1 : ¬(cfg.broadcastAudioOn = true ∧ req1.path = cfg.broadcastAudioRoute))
    (hpath1 : req1.path = cfg.chromecastTTSRoute)
    (hc2 : req2.command = some t) (hu2 : req2.user = some u2)
    (hk2 : req2.relayKey = some k2) (huc2 : cfg.users u2 = some uc2)
    (hkey2 : k2 = uc2.relayKey)
    (hba2 : ¬(cfg.broadcastAudioOn = true ∧ req2.path = cfg.broadcastAudioRoute))
    (hpath2 : req2.path = cfg.chromecastTTSRoute)
    (htts : cfg.chromecastTTSOn = true)
    (hv : resolvedVoice cfg req1 = resolvedVoice cfg req2) :
    ttsArtifact hash cfg req1 t = ttsArtifact hash cfg req2 t ∧
    ∀ a ∈ (routerPost hash cfg (routerPost hash cfg cache req1).2.2 req2).2.1,
      ∀ s v, a ≠ RelayAction.synthesize s v := by
  have hart : ttsArtifact hash cfg req1 t = ttsArtifact hash cfg req2 t := by
    unfold ttsArtifact
    rw [hv]
  refine ⟨hart, ?_⟩
  have hmem : ttsArtifact hash cfg req2 t ∈ (routerPost hash cfg cache req1).2.2 := by
    rw [← hart]
    exact routerPost_tts_cache_mem hash cfg cache req1 t u1 k1 uc1 hc1 hu1 hk1 huc1
      hkey1 hba1 htts hpath1
  rw [routerPost_tts hash cfg _ req2 t u2 k2 uc2 hc2 hu2 hk2 huc2 hkey2 hba2 htts hpath2]
  rw [if_pos hmem]
  intro a ha s v
  simp only [List.mem_singleton] at ha
  subst ha
  simp

/-- Witness for C6 at a concrete configuration and request. -/
theorem C6_ttsCache_witness :
    ttsArtifact (fun s => s) sampleCfg sampleTTSReq "hi" =
      ttsArtifact (fun s => s) sampleCfg sampleTTSReq "hi" ∧
    ∀ a ∈ (routerPost (fun s => s) sampleCfg
        (routerPost (fun s => s) sampleCfg [] sampleTTSReq).2.2 sampleTTSReq).2.1,
      ∀ s v, a ≠ RelayAction.synthesize s v :=
  C6_ttsCache (fun s => s) sampleCfg [] sampleTTSReq sampleTTSReq "hi" "alice" "alice"
    "k" "k" sampleUser sampleUser rfl rfl rfl (by decide) rfl (by decide) rfl
    rfl rfl rfl (by decide) rfl (by decide) rfl rfl rfl

/-- C7 (confirmed): a request carrying all three required fields whose user
is unknown or whose `relayKey` differs (exact, case-sensitive string
equality) from the user's configured key is answered 403 with no downstream
action and no cache change, regardless of path. -/
theorem C7_authReject (hash : String → String) (cfg : Config) (cache : List String)
    (req : Request) (c u k : String)
    (hc : req.command = some c) (hu : req.user = some u) (hk : req.relayKey = some k)
    (hauth : cfg.users u = none ∨ ∃ uc, cfg.users u = some uc ∧ k ≠ uc.relayKey) :
    routerPost hash cfg cache req =
      ({ status := 403, result := "Access denied." }, [], cache) :=
  routerPost_authFail hash cfg cache req c u k hc hu hk hauth

/-- Witness for C7 with a wrong key for a configured user. -/
theorem C7_authReject_witness :
    routerPost (fun s => s) sampleCfg [] { sampleTTSReq with relayKey := some "bad" } =
      ({ status := 403, result := "Access denied." }, [], []) :=
  C7_authReject (fun s => s) sampleCfg [] { sampleTTSReq with relayKey := some "bad" }
    "hi" "alice" "bad" rfl rfl rfl (Or.inr ⟨sampleUser, by decide, by decide⟩)

/-- C8 (amended): on the cast-control route an authenticated command is
accepted iff it is PLAY, PAUSE or STOP, or SEEK with a positive integer
`currentTime`; SEEK with `currentTime` 0 (JS falsy), negative or absent is
rejected 500 with no call to the Cast Controller, as is any other command. -/
theorem C8_control_validation (hash : String → String) (cfg : Config)
    (cache : List String) (req : Request) (c u k : String) (uc : UserCfg)
    (hc : req.command = some c) (hu : req.user = some u) (hk : req.relayKey = some k)
    (huc : cfg.users u = some uc) (hkey : k = uc.relayKey)
    (hba : ¬(cfg.broadcastAudioOn = true ∧ req.path = cfg.broadcastAudioRoute))
    (htts : ¬(cfg.chromecastTTSOn = true ∧ req.path = cfg.chromecastTTSRoute))
    (hca : ¬(cfg.chromecastAudioOn = true ∧ req.path = cfg.chromecastAudioRoute))
    (hurl : ¬(cfg.chromecastURLOn = true ∧ req.path = cfg.chromecastURLRoute))
    (hctl : cfg.chromecastControlOn = true)
    (hpath : req.path = cfg.chromecastControlRoute) :
    ((c = PLAY ∨ c = PAUSE ∨ c = STOP) →
      routerPost hash cfg cache req =
        ({ status := 200,
           result := "Send control request " ++ c ++ " via Chromecast." },
         [RelayAction.castControl uc.chromecastFriendlyName c none], cache)) ∧
    (∀ t : Int, c = SEEK → req.currentTime = some t → 0 < t →
      routerPost hash cfg cache req =
        ({ status := 200,
           result := "Send control request " ++ c ++ " via Chromecast." },
         [RelayAction.castControl uc.chromecastFriendlyName c (some t)], cache)) ∧
    (c = SEEK → (req.currentTime = none ∨ ∃ t, req.currentTime = some t ∧ t ≤ 0) →
      routerPost hash cfg cache req =
        ({ status := 500, result := "Malfored request." }, [], cache)) ∧
    (¬(c = PLAY ∨ c = PAUSE ∨ c = STOP ∨ c = SEEK) →
      routerPost hash cfg cache req =
        ({ status := 500, result := "Malfored request." }, [], cache)) := by
  rw [routerPost_control hash cfg cache req c u k uc hc hu hk huc hkey hba htts hca
    hurl hctl hpath]
  refine ⟨?_, ?_, ?_, ?_⟩
  · intro hor
    have hcond : c ≠ "" ∧ (c = PLAY ∨ c = PAUSE ∨ c = STOP ∨
        (c = SEEK ∧ seekTimeOk req.currentTime = true)) := by
      rcases hor with h | h | h <;> subst h <;> exact ⟨by decide, by tauto⟩
    rw [if_pos hcond]
    have hne : ¬ c = SEEK := by
      rcases hor with h | h | h <;> subst h <;> decide
    rw [if_neg hne]
  · intro t hseek hct hpos
    subst hseek
    have hok : seekTimeOk req.currentTime = true := by
      rw [hct]
      simp only [seekTimeOk, decide_eq_true_eq]
      omega
    have hcond : SEEK ≠ "" ∧ (SEEK = PLAY ∨ SEEK = PAUSE ∨ SEEK = STOP ∨
        (SEEK = SEEK ∧ seekTimeOk req.currentTime = true)) :=
      ⟨by decide, Or.inr (Or.inr (Or.inr ⟨rfl, hok⟩))⟩
    rw [if_pos hcond, if_pos rfl, hct]
  · intro hseek hbad
    subst hseek
    rw [if_neg ?_]
    rintro ⟨hne, hor⟩
    rcases hor with h | h | h | ⟨hs, hok⟩
    · exact absurd h (by decide)
    · exact absurd h (by decide)
    · exact absurd h (by decide)
    · rcases hbad with hn | ⟨t, ht, htle⟩
      · rw [hn] at hok
        simp [seekTimeOk] at hok
      · rw [ht] at hok
        simp only [seekTimeOk, decide_eq_true_eq] at hok
        omega
  · intro hnot
    rw [if_neg ?_]
    rintro ⟨hne, hor⟩
    rcases hor with h | h | h | ⟨hs, hok⟩
    · exact hnot (Or.inl h)
    · exact hnot (Or.inr (Or.inl h))
    · exact hnot (Or.inr (Or.inr (Or.inl h)))
    · exact hnot (Or.inr (Or.inr (Or.inr hs)))

/-- Witness for C8: a SEEK with `currentTime = 5` is accepted and forwarded. -/
theorem C8_control_validation_witness :
    routerPost (fun s => s) sampleCfg [] (sampleSeekReq (some 5)) =
      ({ status := 200,
         result := "Send control request " ++ "SEEK" ++ " via Chromecast." },
       [RelayAction.castControl sampleUser.chromecastFriendlyName "SEEK" (some 5)],
       []) :=
  (C8_control_validation (fun s => s) sampleCfg [] (sampleSeekReq (some 5)) "SEEK"
      "alice" "k" sampleUser rfl rfl rfl (by decide) rfl (by decide) (by decide)
      (by decide) (by decide) rfl rfl).2.1 5 rfl rfl (by decide)

/-- C8 counterexample: an authenticated SEEK with the non-negative integer
`currentTime = 0` is rejected 500 with no downstream action (0 is falsy in
the source's validation), contrary to the claim that every non-negative
integer is accepted and forwarded. -/
theorem C8_counterexample :
    routerPost (fun s => s) sampleCfg [] (sampleSeekReq (some 0)) =
      ({ status := 500, result := "Malfored request." }, [], []) := by
  decide

/-- C9: the outbound buffer of a continued conversation is written whole, in
order, in `buf.slice(i, i+16000)` frames, followed by a single write of the
`silence` array — which holds 32000 zero samples (two seconds at 16 kHz),
not the 16000 samples (one second) that the claim and the source's own
comment state. -/
theorem C9_frames_silence (buf : List Nat) :
    (framesOf buf).flatten = buf ∧ silence.length = 32000 :=
  ⟨framesOf_join buf, by
    show (List.replicate 32000 (0 : Int)).length = 32000
    rw [List.length_replicate]⟩

/-- C10 (confirmed): the dispatcher answers 400 exactly when `command`,
`user` or `relayKey` is null/absent; in particular an empty-string `command`
passes field validation and reaches the authentication check and dispatch. -/
theorem C10_field_validation (hash : String → String) (cfg : Config)
    (cache : List String) (req : Request) :
    (routerPost hash cfg cache req).1.status = 400 ↔
      (req.command = none ∨ req.user = none ∨ req.relayKey = none) :=
  routerPost_status400_iff hash cfg cache req
